import Mathlib

/-!
Verification of the invoice reconciliation engine of the onchain-dd
merchant-invoicing demo.

The development shallowly embeds the reconciliation core:

* the memo codec (`src/server/invoices.ts` `toMemoHex`, client `decodeInvoiceId`),
* the invoice-id generator (`makeInvoiceId`),
* the real-time watcher (`startInvoiceWatcher` in `src/server/index.ts`),
* the backfill endpoint (`GET /api/invoices/refresh-status`),
* the mark-paid endpoint (`POST /api/invoices/mark-paid`),
* the SSE fan-out (`src/server/sse.ts` `broadcast`),
* the chunked historical query loop (`GET /api/transactions`).

Strings that the code compares case-insensitively (hex addresses, memos)
are modelled as Lean `String`s together with an explicit `lowerStr`
normalisation mirroring JavaScript `toLowerCase` on ASCII hex strings.
Invoice identifiers and memos handled by the codec are modelled at the
UTF-8 byte level as `List Nat` (one entry per byte), which is exact for
the ASCII identifiers the generator produces and for viem's
`stringToHex`/`hexToString` pair on valid UTF-8.
-/

namespace OnchainDD

/-! ### Memo codec

`toMemoHex` (`src/server/invoices.ts`) is
`pad(stringToHex(invoiceId), { size: 32 })`.  viem's `pad` defaults to
LEFT padding (leading zero bytes) and throws `SizeExceedsPaddingSizeError`
when the payload exceeds 32 bytes; the throwing branch is modelled as
`none`.  `decodeInvoiceId` (client `App.tsx`) is
`hexToString(invoiceId).replace(/\u0000/g, '')`: it removes every NUL
character, not only trailing ones; on the byte level this is a filter of
the zero bytes. -/

def MEMO_SIZE : Nat := 32

def toMemoHex (bytes : List Nat) : Option (List Nat) :=
  if bytes.length ≤ MEMO_SIZE then
    some (List.replicate (MEMO_SIZE - bytes.length) 0 ++ bytes)
  else
    none

def decodeInvoiceId (memo : List Nat) : List Nat :=
  memo.filter (fun b => b != 0)

/-! ### Invoice-id generator

`makeInvoiceId` (`src/server/invoices.ts`) returns
`INV-` ++ `String(n).padStart(4, '0')` ++ `-` ++ `randomShortId()`.
The random suffix is `Math.random().toString(16).slice(2, 10)`: at most
eight ASCII hex characters.  The suffix is a parameter of the model;
callers that quantify over it carry the length bound `≤ 8` that
`slice(2, 10)` guarantees.  At its call site
(`POST /api/invoices/create`) `n` is the registry's `nextInvoiceNumber`,
a uint256 bigint whose decimal representation is exact, so the digit
string is modelled by `Nat.toDigits 10`. -/

def strBytes (s : String) : List Nat := s.data.map Char.toNat

def decDigits (n : Nat) : List Nat := (Nat.toDigits 10 n).map Char.toNat

def padStart (w : Nat) (z : Nat) (l : List Nat) : List Nat :=
  List.replicate (w - l.length) z ++ l

def makeInvoiceId (n : Nat) (suffix : List Nat) : List Nat :=
  strBytes "INV-" ++ padStart 4 48 (decDigits n) ++ strBytes "-" ++ suffix

/-! ### Shared data model

`lowerStr` models JavaScript `toLowerCase` as used on hex addresses,
transaction hashes and bytes32 memos (ASCII strings, on which
`Char.toLower` agrees with JS).  `EventLog` models a decoded
`TransferWithMemo` log as viem delivers it: `address` is the emitting
token contract, `fromAddr` and `toAddr` stand for the
source `from` and `to` fields (both are reserved tokens in Lean). -/

def lowerStr (s : String) : String := String.mk (s.data.map Char.toLower)

structure EventLog where
  address : String
  fromAddr : String
  toAddr : String
  value : Nat
  memo : String
  transactionHash : String
  blockNumber : Nat
  logIndex : Nat
deriving DecidableEq, Repr

/-! ### Invoice projection store and real-time watcher

Models `startInvoiceWatcher` (`src/server/index.ts`): the module-level
`invoices` array of `Invoice` records (`src/server/invoices.ts`),
`invoiceByMemoHex`, and the `onLogs` handler that marks a matching
unpaid projection entry `Paid` in place and emits the two `broadcast`
calls.  The in-place mutation of the record returned by `Array.find` is
modelled by replacing the first list element satisfying the same
predicate. -/

inductive InvoiceStatus
  | Unpaid
  | Paid
deriving DecidableEq, Repr

structure ProjInvoice where
  number : Nat
  id : String
  memoHex : String
  amountUsd : String
  status : InvoiceStatus
  paidTxHash : Option String
  paidAmount : Option String
  paidFrom : Option String
deriving DecidableEq, Repr

inductive SseMessage
  | invoicePaid (inv : ProjInvoice)
  | invoicesSnapshot (invs : List ProjInvoice)
deriving DecidableEq, Repr

structure WatcherState where
  invoices : List ProjInvoice
  broadcasts : List SseMessage
deriving DecidableEq, Repr

def memoMatches (memoHex : String) (inv : ProjInvoice) : Bool :=
  lowerStr inv.memoHex == lowerStr memoHex

def invoiceByMemoHex (invs : List ProjInvoice) (memoHex : String) : Option ProjInvoice :=
  invs.find? (memoMatches memoHex)

def replaceFirst (p : α → Bool) (x : α) : List α → List α
  | [] => []
  | a :: as => if p a then x :: as else a :: replaceFirst p x as

def paidFromLog (log : EventLog) (inv : ProjInvoice) : ProjInvoice :=
  { inv with
    status := .Paid
    paidTxHash := some log.transactionHash
    paidFrom := some log.fromAddr
    paidAmount := some (toString log.value) }

def processLog (merchant : String) (s : WatcherState) (log : EventLog) : WatcherState :=
  if lowerStr log.toAddr ≠ lowerStr merchant then s
  else
    match invoiceByMemoHex s.invoices log.memo with
    | none => s
    | some inv =>
      if inv.status = .Paid then s
      else
        let paid := paidFromLog log inv
        let invoices2 := replaceFirst (memoMatches log.memo) paid s.invoices
        { invoices := invoices2
          broadcasts := s.broadcasts ++ [.invoicePaid paid, .invoicesSnapshot invoices2] }

def processBatch (merchant : String) (s : WatcherState) (logs : List EventLog) : WatcherState :=
  logs.foldl (processLog merchant) s

def countInvoicePaid (msgs : List SseMessage) : Nat :=
  (msgs.filter (fun m => match m with | .invoicePaid _ => true | _ => false)).length

/-! ### Registry invoices and the refresh-status backfill

Models `GET /api/invoices/refresh-status` (`src/server/index.ts`).
`RegInvoice` is the on-chain record returned by `getInvoice`
(status `0` = Open, `1` = Paid, per `InvoiceRegistry.sol`).  The
endpoint builds `memoIndex`, a JS `Map` from the string key
`from.toLowerCase() + ':' + memo.toLowerCase()` to the log's transaction
hash; hex addresses and memos contain no `':'`, so the key is modelled
as the pair of lowered strings.  `Map.set` overwrites an existing key,
which the model realises by consing the new binding in front and letting
`mapGet` take the first (most recently set) binding.  The loop over
invoice numbers `1 .. nextInvoiceNumber - 1` reads each invoice, skips
non-open ones, and on an index hit calls the registry's `markPaid`
(which sets status Paid and records the hash) and counts it; each
iteration is independent of the others, which `refreshLoop` mirrors
sequentially. -/

structure RegInvoice where
  number : Nat
  invoiceId : String
  payee : String
  status : Nat
  paidTxHash : String
deriving DecidableEq, Repr

abbrev MemoIndex := List ((String × String) × String)

def memoKey (fromAddr memo : String) : String × String :=
  (lowerStr fromAddr, lowerStr memo)

def memoIndexSet (merchant : String) (m : MemoIndex) (log : EventLog) : MemoIndex :=
  if lowerStr log.toAddr ≠ lowerStr merchant then m
  else (memoKey log.fromAddr log.memo, log.transactionHash) :: m

def buildMemoIndex (merchant : String) (logs : List EventLog) : MemoIndex :=
  logs.foldl (memoIndexSet merchant) []

def mapGet (k : String × String) : MemoIndex → Option String
  | [] => none
  | (k2, v) :: rest => if k2 = k then some v else mapGet k rest

def stepInvoice (idx : MemoIndex) (inv : RegInvoice) : RegInvoice × Nat :=
  if inv.status ≠ 0 then (inv, 0)
  else
    match mapGet (memoKey inv.payee inv.invoiceId) idx with
    | none => (inv, 0)
    | some tx => ({ inv with status := 1, paidTxHash := tx }, 1)

def refreshLoop (idx : MemoIndex) : List RegInvoice → List RegInvoice × Nat
  | [] => ([], 0)
  | inv :: rest =>
    let r := stepInvoice idx inv
    let rr := refreshLoop idx rest
    (r.1 :: rr.1, r.2 + rr.2)

def refreshPass (merchant : String) (logs : List EventLog) (regs : List RegInvoice) :
    List RegInvoice × Nat :=
  refreshLoop (buildMemoIndex merchant logs) regs

def settles (merchant : String) (inv : RegInvoice) (log : EventLog) : Bool :=
  (lowerStr log.toAddr == lowerStr merchant) &&
  (lowerStr log.fromAddr == lowerStr inv.payee) &&
  (lowerStr log.memo == lowerStr inv.invoiceId)

/-! ### The mark-paid endpoint

Models `POST /api/invoices/mark-paid` (`src/server/index.ts`, lines
205-271 of the current revision).  The handler validates the request
body, reads the invoice from the registry, returns the `already-paid`
no-op when the status is not Open, fetches the receipt, rejects
unsuccessful transactions, searches the receipt's parsed
`TransferWithMemo` logs for one on the payment token whose
`from`/`to`/`memo` match the invoice's payee, the merchant address and
the invoice id, and only then issues the registry `markPaid` write.
External reads are parameters: `invoice` is what `getInvoice` returned,
`receipt` what `getTransactionReceipt` returned (its `logs` already run
through `parseEventLogs`, so only decoded `TransferWithMemo` entries
remain), `writeHash` the hash of the `markPaid` transaction.
`registryCall` records the arguments of the `markPaid` write, `none`
when no mutation was issued. -/

structure Receipt where
  success : Bool
  logs : List EventLog
deriving DecidableEq, Repr

inductive MarkPaidResp
  | error (message : String)
  | alreadyPaid
  | paid (hash : String)
deriving DecidableEq, Repr

structure MarkPaidOutcome where
  resp : MarkPaidResp
  registryCall : Option (Nat × String)
deriving DecidableEq, Repr

def matchesInvoice (alphaUsd merchant payee invoiceId : String) (log : EventLog) : Bool :=
  (lowerStr log.address == lowerStr alphaUsd) &&
  (lowerStr log.fromAddr == lowerStr payee) &&
  (lowerStr log.toAddr == lowerStr merchant) &&
  (lowerStr log.memo == lowerStr invoiceId)

def markPaidHandler (alphaUsd merchant : String) (numberQ : Option Nat)
    (txHashQ : Option String) (invoice : RegInvoice) (receipt : Receipt)
    (writeHash : String) : MarkPaidOutcome :=
  match numberQ with
  | none => ⟨.error "Missing invoice number", none⟩
  | some num =>
    match txHashQ with
    | none => ⟨.error "Missing txHash", none⟩
    | some txh =>
      if invoice.status ≠ 0 then ⟨.alreadyPaid, none⟩
      else if receipt.success = false then ⟨.error "Transaction not successful", none⟩
      else
        match receipt.logs.find? (matchesInvoice alphaUsd merchant invoice.payee invoice.invoiceId) with
        | none => ⟨.error "No matching TransferWithMemo found", none⟩
        | some _ => ⟨.paid writeHash, some (num, txh)⟩

/-! ### SSE fan-out

Models `broadcast` (`src/server/sse.ts`): a plain `for` loop writing the
same payload to every registered client's response stream, with no
`try`/`catch` and no removal of clients.  A client whose channel is
broken makes `res.write` raise; `broken` marks such a client and the
second component of the result records whether the loop was aborted by
such an exception (which then propagates to `broadcast`'s caller).  The
first component lists, in order, the `(id, payload)` deliveries that
actually happened before the abort. -/

structure SseClient where
  id : String
  broken : Bool
deriving DecidableEq, Repr

def broadcastRun (payload : String) : List SseClient → List (String × String) × Bool
  | [] => ([], false)
  | c :: rest =>
    if c.broken then ([], true)
    else
      let r := broadcastRun payload rest
      ((c.id, payload) :: r.1, r.2)

/-! ### Chunked historical log query

Models the block-range loop of `GET /api/transactions`
(`src/server/index.ts`): starting at the chain head, query
`[boundedStart, endBlock]` where `startBlock` is
`endBlock > MAX_LOG_RANGE ? endBlock - MAX_LOG_RANGE : 0` and
`boundedStart` clamps it to `minBlock`; collect the logs of the chunk,
deduplicating by the `(transactionHash, logIndex)` key exactly as the
endpoint's `memoKeySet` does; stop when `boundedStart` reaches `0` or
`minBlock`, otherwise continue with `endBlock = boundedStart - 1`.  The
ledger collaborator is a fixed list of events and a query returns, in
order, the events satisfying the endpoint's fixed event/address filter
`q` whose block number lies in the inclusive range.  The loop's
iteration count is bounded by the head block number, which the `fuel`
argument makes structural; `chunkQuery` supplies sufficient fuel. -/

def MAX_LOG_RANGE : Nat := 500

def logKey (e : EventLog) : String × Nat := (e.transactionHash, e.logIndex)

def getLogsIn (q : EventLog → Bool) (ledger : List EventLog) (lo hi : Nat) :
    List EventLog :=
  ledger.filter (fun e => q e && decide (lo ≤ e.blockNumber) && decide (e.blockNumber ≤ hi))

def addKeys (seen : List (String × Nat)) : List EventLog → List (String × Nat)
  | [] => seen
  | e :: es => if logKey e ∈ seen then addKeys seen es else addKeys (logKey e :: seen) es

def chunkLoop (q : EventLog → Bool) (ledger : List EventLog) (minBlock : Nat) :
    Nat → Nat → List (String × Nat) → List (String × Nat)
  | 0, _, seen => seen
  | fuel + 1, endBlock, seen =>
    let startBlock := if MAX_LOG_RANGE < endBlock then endBlock - MAX_LOG_RANGE else 0
    let boundedStart := if startBlock < minBlock then minBlock else startBlock
    let seen2 := addKeys seen (getLogsIn q ledger boundedStart endBlock)
    if boundedStart = 0 ∨ boundedStart = minBlock then seen2
    else chunkLoop q ledger minBlock fuel (boundedStart - 1) seen2

def chunkQuery (q : EventLog → Bool) (ledger : List EventLog) (minBlock latest : Nat) :
    List (String × Nat) :=
  if minBlock ≤ latest then chunkLoop q ledger minBlock (latest + 1) latest [] else []

/-! ## Theorems -/

/-- C2, counterexample: the round-trip claim fails as stated.  The
one-byte string consisting of a single NUL byte has UTF-8 byte length
1 ≤ 32, yet `decodeInvoiceId` strips every zero byte of the padded memo,
so the decoded result is the empty string, not the original. -/
theorem decode_encode_roundtrip_cex :
    (toMemoHex [0]).map decodeInvoiceId ≠ some [0] := by decide

/-- C2, amended: for every string whose UTF-8 byte length is at most 32
and which contains no zero byte, decoding the padded 32-byte memo
returns the original string (`decodeInvoiceId` strips exactly the
padding bytes). -/
theorem decode_encode_roundtrip (s : List Nat) (h1 : s.length ≤ MEMO_SIZE)
    (h2 : ∀ b ∈ s, b ≠ 0) :
    (toMemoHex s).map decodeInvoiceId = some s := by
  rw [toMemoHex, if_pos h1, Option.map_some']
  congr 1
  rw [decodeInvoiceId, List.filter_append]
  have hrep : (List.replicate (MEMO_SIZE - s.length) 0).filter (fun b => b != 0) = [] := by
    apply List.filter_eq_nil_iff.mpr
    intro a ha
    rw [List.eq_of_mem_replicate ha]
    simp
  have hself : s.filter (fun b => b != 0) = s := by
    apply List.filter_eq_self.mpr
    intro a ha
    simpa using h2 a ha
  rw [hrep, hself, List.nil_append]

/-- C2, witness for the amended round-trip at a concrete identifier. -/
theorem decode_encode_roundtrip_witness :
    (toMemoHex (strBytes "INV-0007-ab12cd34")).map decodeInvoiceId =
      some (strBytes "INV-0007-ab12cd34") :=
  decode_encode_roundtrip (strBytes "INV-0007-ab12cd34") (by decide) (by decide)

/-- C10: for every invoice number with at most 19 decimal digits and
every random suffix of at most 8 bytes (the bound `slice(2, 10)`
guarantees), the generated invoice identifier has UTF-8 byte length at
most 32, so padding it into the bytes32 memo never reaches the
size-exceeded error branch. -/
theorem makeInvoiceId_fits_memo (n : Nat) (suffix : List Nat)
    (hd : (decDigits n).length ≤ 19) (hs : suffix.length ≤ 8) :
    (makeInvoiceId n suffix).length ≤ MEMO_SIZE ∧
    (toMemoHex (makeInvoiceId n suffix)).isSome := by
  have h4 : (strBytes "INV-").length = 4 := rfl
  have h1 : (strBytes "-").length = 1 := rfl
  have hlen : (makeInvoiceId n suffix).length ≤ MEMO_SIZE := by
    show (makeInvoiceId n suffix).length ≤ 32
    rw [makeInvoiceId]
    simp only [List.length_append, h4, h1, padStart, List.length_replicate]
    omega
  exact ⟨hlen, by rw [toMemoHex, if_pos hlen]; rfl⟩

/-- C10, witness at invoice number 7 with suffix `ab12cd34`. -/
theorem makeInvoiceId_fits_memo_witness :
    (makeInvoiceId 7 (strBytes "ab12cd34")).length ≤ MEMO_SIZE ∧
    (toMemoHex (makeInvoiceId 7 (strBytes "ab12cd34"))).isSome :=
  makeInvoiceId_fits_memo 7 (strBytes "ab12cd34") (by decide) (by decide)

/-- C5: a `TransferWithMemo` event whose `to` differs case-insensitively
from the configured merchant address causes no invoice mutation: the
real-time watcher leaves the whole projection state (entries and
broadcasts) unchanged, and the backfill index builder adds no entry for
the event to the memo index. -/
theorem recipient_filter_no_mutation (merchant : String) (s : WatcherState)
    (m : MemoIndex) (e : EventLog)
    (hto : lowerStr e.toAddr ≠ lowerStr merchant) :
    processLog merchant s e = s ∧ memoIndexSet merchant m e = m := by
  constructor
  · rw [processLog, if_pos hto]
  · rw [memoIndexSet, if_pos hto]

/-- C5, witness: an event addressed to `0xOther` is ignored by a watcher
configured for `0xMerchant`. -/
theorem recipient_filter_no_mutation_witness :
    processLog "0xMerchant"
        ⟨[⟨1, "INV-0001-aa", "0xAA", "10.00", .Unpaid, none, none, none⟩], []⟩
        ⟨"0xToken", "0xPayer", "0xOther", 10, "0xAA", "0xTx1", 5, 0⟩ =
      ⟨[⟨1, "INV-0001-aa", "0xAA", "10.00", .Unpaid, none, none, none⟩], []⟩ ∧
    memoIndexSet "0xMerchant" []
        ⟨"0xToken", "0xPayer", "0xOther", 10, "0xAA", "0xTx1", 5, 0⟩ = [] :=
  recipient_filter_no_mutation "0xMerchant" _ _ _ (by decide)

/-- C6: when the named invoice is Open and the supplied transaction
succeeded but none of its `TransferWithMemo` logs is on the payment
token with `from` the invoice's payee, `to` the merchant and `memo` the
invoice id, the handler answers with the distinct
`No matching TransferWithMemo found` error and issues no registry
`markPaid` call. -/
theorem mark_paid_no_match_rejected (alphaUsd merchant : String) (num : Nat)
    (txh : String) (invoice : RegInvoice) (receipt : Receipt) (writeHash : String)
    (hopen : invoice.status = 0) (hsucc : receipt.success = true)
    (hnomatch : ∀ log ∈ receipt.logs,
      matchesInvoice alphaUsd merchant invoice.payee invoice.invoiceId log = false) :
    markPaidHandler alphaUsd merchant (some num) (some txh) invoice receipt writeHash =
      ⟨.error "No matching TransferWithMemo found", none⟩ := by
  have hfind :
      receipt.logs.find? (matchesInvoice alphaUsd merchant invoice.payee invoice.invoiceId)
        = none :=
    List.find?_eq_none.mpr fun x hx => by simp [hnomatch x hx]
  simp [markPaidHandler, hopen, hsucc, hfind]

/-- C6, witness: a successful receipt whose only log pays a different
merchant is rejected without mutation. -/
theorem mark_paid_no_match_rejected_witness :
    markPaidHandler "0xToken" "0xMerchant" (some 1) (some "0xTx1")
        ⟨1, "0xMemo1", "0xAlice", 0, "0x0"⟩
        ⟨true, [⟨"0xToken", "0xAlice", "0xElsewhere", 5, "0xMemo1", "0xTx1", 3, 0⟩]⟩
        "0xWriteTx" =
      ⟨.error "No matching TransferWithMemo found", none⟩ :=
  mark_paid_no_match_rejected "0xToken" "0xMerchant" 1 "0xTx1" _ _ "0xWriteTx"
    (by decide) (by decide) (by decide)

/-- C7: when the named invoice's registry status is not Open, the
handler returns the successful `already-paid` no-op for every possible
receipt (so it depends on no receipt lookup and no log matching) and
issues no registry mutation; the response is distinct from the
newly-paid response and from every error response. -/
theorem mark_paid_already_paid_noop (alphaUsd merchant : String) (num : Nat)
    (txh : String) (invoice : RegInvoice) (receipt : Receipt) (writeHash : String)
    (hpaid : invoice.status ≠ 0) :
    markPaidHandler alphaUsd merchant (some num) (some txh) invoice receipt writeHash =
      ⟨.alreadyPaid, none⟩ ∧
    (∀ h2, MarkPaidResp.alreadyPaid ≠ MarkPaidResp.paid h2) ∧
    (∀ msg, MarkPaidResp.alreadyPaid ≠ MarkPaidResp.error msg) := by
  refine ⟨?_, fun h2 => by simp, fun msg => by simp⟩
  simp [markPaidHandler, hpaid]

/-- C7, witness: a Paid invoice yields the `already-paid` no-op. -/
theorem mark_paid_already_paid_noop_witness :
    markPaidHandler "0xToken" "0xMerchant" (some 1) (some "0xTx1")
        ⟨1, "0xMemo1", "0xAlice", 1, "0xTxOld"⟩
        ⟨true, [⟨"0xToken", "0xAlice", "0xMerchant", 5, "0xMemo1", "0xTx1", 3, 0⟩]⟩
        "0xWriteTx" =
      ⟨.alreadyPaid, none⟩ ∧
    (∀ h2, MarkPaidResp.alreadyPaid ≠ MarkPaidResp.paid h2) ∧
    (∀ msg, MarkPaidResp.alreadyPaid ≠ MarkPaidResp.error msg) :=
  mark_paid_already_paid_noop "0xToken" "0xMerchant" 1 "0xTx1" _ _ "0xWriteTx" (by decide)

/-- C4, counterexample: two events in the queried window share the
`(sender, memo)` key; the first (in block order, as `getLogs` returns
them) has transaction hash `0xTxFirst`, yet the index records the
second's hash `0xTxSecond`, because `Map.set` overwrites the earlier
binding.  The registry's `markPaid` would therefore receive the later
hash, refuting the claim that the first event's hash is recorded. -/
theorem memoIndex_first_event_cex :
    mapGet (memoKey "0xAlice" "0xMemo1")
        (buildMemoIndex "0xMerchant"
          [⟨"0xToken", "0xAlice", "0xMerchant", 5, "0xMemo1", "0xTxFirst", 10, 0⟩,
           ⟨"0xToken", "0xAlice", "0xMerchant", 5, "0xMemo1", "0xTxSecond", 11, 1⟩]) =
      some "0xTxSecond" ∧ ("0xTxSecond" : String) ≠ "0xTxFirst" := by decide

/-- C4, amended: when several events in the queried window share the
same `(sender, memo)` key, the hash recorded for that key — and passed
to `markPaid` — is that of the LAST matching event in the order the
query returns them (ascending block order): any event addressed to the
merchant overwrites every earlier binding of its key. -/
theorem memoIndex_last_event_wins (merchant : String) (pre : List EventLog)
    (e : EventLog) (hto : lowerStr e.toAddr = lowerStr merchant) :
    mapGet (memoKey e.fromAddr e.memo) (buildMemoIndex merchant (pre ++ [e])) =
      some e.transactionHash := by
  rw [buildMemoIndex, List.foldl_append, List.foldl_cons, List.foldl_nil,
    memoIndexSet, if_neg (by simp [hto]), mapGet, if_pos rfl]

/-- C4, witness for the amended statement: the duplicate pair of the
counterexample indeed records the later hash. -/
theorem memoIndex_last_event_wins_witness :
    mapGet (memoKey "0xAlice" "0xMemo1")
        (buildMemoIndex "0xMerchant"
          ([⟨"0xToken", "0xAlice", "0xMerchant", 5, "0xMemo1", "0xTxFirst", 10, 0⟩] ++
           [⟨"0xToken", "0xAlice", "0xMerchant", 5, "0xMemo1", "0xTxSecond", 11, 1⟩])) =
      some "0xTxSecond" :=
  memoIndex_last_event_wins "0xMerchant"
    [⟨"0xToken", "0xAlice", "0xMerchant", 5, "0xMemo1", "0xTxFirst", 10, 0⟩]
    ⟨"0xToken", "0xAlice", "0xMerchant", 5, "0xMemo1", "0xTxSecond", 11, 1⟩ (by decide)

/-- C8, counterexample: `broadcast` has no `try`/`catch`.  With three
registered observers of which the middle one's channel is broken, the
first observer receives the payload, the write to the broken observer
raises and aborts the loop (the error propagates to the caller), the
third observer receives nothing, and nothing is dropped from the client
list — refuting the claim that the failure is caught and the remaining
observers still receive the payload. -/
theorem broadcast_catch_cex :
    broadcastRun "data" [⟨"obsA", false⟩, ⟨"obsB", true⟩, ⟨"obsC", false⟩] =
      ([("obsA", "data")], true) ∧
    ("obsC", "data") ∉
      (broadcastRun "data" [⟨"obsA", false⟩, ⟨"obsB", true⟩, ⟨"obsC", false⟩]).1 := by
  decide

/-- C8, amended: a failure while writing to one registered observer is
NOT caught: the loop delivers the payload to exactly the observers
preceding the broken one, the exception propagates out of `broadcast`
(abort flag `true`), observers after the broken one receive nothing,
and the broken observer is not removed from the client list. -/
theorem broadcast_error_propagates (payload : String) (pre post : List SseClient)
    (b : SseClient) (hpre : ∀ c ∈ pre, c.broken = false) (hb : b.broken = true) :
    broadcastRun payload (pre ++ b :: post) =
      (pre.map fun c => (c.id, payload), true) := by
  induction pre with
  | nil => simp [broadcastRun, hb]
  | cons c cs ih =>
    have hc : c.broken = false := hpre c (by simp)
    have ih2 := ih fun x hx => hpre x (by simp [hx])
    simp [broadcastRun, hc, ih2]

/-- C8, witness for the amended statement at the counterexample's client
list. -/
theorem broadcast_error_propagates_witness :
    broadcastRun "data" (([⟨"obsA", false⟩] : List SseClient) ++ ⟨"obsB", true⟩ :: [⟨"obsC", false⟩]) =
      (([⟨"obsA", false⟩] : List SseClient).map fun c => (c.id, "data"), true) :=
  broadcast_error_propagates "data" [⟨"obsA", false⟩] [⟨"obsC", false⟩]
    ⟨"obsB", true⟩ (by decide) (by decide)

/-- Replacing the first element satisfying `p` by an element that itself
satisfies `p` makes that element the first hit of `find?`. -/
theorem find?_replaceFirst_self {α : Type} (p : α → Bool) (x : α) (l : List α)
    (hl : (l.find? p).isSome) (hx : p x = true) :
    (replaceFirst p x l).find? p = some x := by
  induction l with
  | nil => simp [List.find?] at hl
  | cons a as ih =>
    by_cases hp : p a = true
    · simp [replaceFirst, hp, List.find?_cons, hx]
    · have hp' : p a = false := by simpa using hp
      simp only [List.find?_cons, hp'] at hl
      simp [replaceFirst, hp', List.find?_cons, ih hl]

/-- The watcher skips an event whose memo resolves to an already-paid
projection entry: the state is exactly unchanged. -/
theorem processLog_already_paid (merchant : String) (s : WatcherState)
    (e : EventLog) (j : ProjInvoice)
    (hfind : invoiceByMemoHex s.invoices e.memo = some j)
    (hj : j.status = .Paid) : processLog merchant s e = s := by
  simp [processLog, hfind, hj]

/-- C1: for an invoice whose projection-store entry for the event's memo
is `Unpaid`, delivering two identical `TransferWithMemo` events to the
merchant — in one `onLogs` batch or in two successive batches — yields
the same final state as delivering the event once: the entry transitions
to `Paid` exactly once and exactly one `invoicePaid` notification is
broadcast. -/
theorem watcher_idempotent_settlement (merchant : String) (s : WatcherState)
    (e : EventLog) (inv : ProjInvoice)
    (hto : lowerStr e.toAddr = lowerStr merchant)
    (hfind : invoiceByMemoHex s.invoices e.memo = some inv)
    (hst : inv.status = .Unpaid) :
    processBatch merchant s [e, e] = processBatch merchant s [e] ∧
    processBatch merchant (processBatch merchant s [e]) [e] =
      processBatch merchant s [e] ∧
    (invoiceByMemoHex (processBatch merchant s [e]).invoices e.memo).map
      ProjInvoice.status = some InvoiceStatus.Paid ∧
    countInvoicePaid (processBatch merchant s [e]).broadcasts =
      countInvoicePaid s.broadcasts + 1 := by
  have hs1 : processLog merchant s e =
      ⟨replaceFirst (memoMatches e.memo) (paidFromLog e inv) s.invoices,
        s.broadcasts ++
          [.invoicePaid (paidFromLog e inv),
           .invoicesSnapshot
             (replaceFirst (memoMatches e.memo) (paidFromLog e inv) s.invoices)]⟩ := by
    simp [processLog, hto, hfind, hst]
  have hp_inv : memoMatches e.memo inv = true :=
    List.find?_some (by simpa [invoiceByMemoHex] using hfind)
  have hp_paid : memoMatches e.memo (paidFromLog e inv) = true := by
    simpa [memoMatches, paidFromLog] using hp_inv
  have hfind2 : invoiceByMemoHex
      (replaceFirst (memoMatches e.memo) (paidFromLog e inv) s.invoices) e.memo =
      some (paidFromLog e inv) := by
    rw [invoiceByMemoHex]
    refine find?_replaceFirst_self _ _ _ ?_ hp_paid
    rw [show s.invoices.find? (memoMatches e.memo) = some inv from hfind]
    rfl
  have hstatus_paid : (paidFromLog e inv).status = InvoiceStatus.Paid := rfl
  have hstep2 : processLog merchant (processLog merchant s e) e =
      processLog merchant s e := by
    rw [hs1]
    exact processLog_already_paid merchant _ e (paidFromLog e inv) hfind2 hstatus_paid
  refine ⟨?_, ?_, ?_, ?_⟩
  · show processLog merchant (processLog merchant s e) e = processLog merchant s e
    exact hstep2
  · show processLog merchant (processLog merchant s e) e = processLog merchant s e
    exact hstep2
  · show (invoiceByMemoHex (processLog merchant s e).invoices e.memo).map
      ProjInvoice.status = some InvoiceStatus.Paid
    rw [hs1]
    simp only
    rw [hfind2, Option.map_some', hstatus_paid]
  · show countInvoicePaid (processLog merchant s e).broadcasts =
      countInvoicePaid s.broadcasts + 1
    rw [hs1]
    simp [countInvoicePaid, List.filter_append]

/-- C1, witness: one unpaid invoice, one matching event delivered twice
(memo compared case-insensitively). -/
theorem watcher_idempotent_settlement_witness :
    processBatch "0xMerchant"
        ⟨[⟨1, "INV-0001-aa", "0xMemoHexAA", "10.00", .Unpaid, none, none, none⟩], []⟩
        [⟨"0xToken", "0xPayer", "0xMERCHANT", 10, "0xmemohexaa", "0xTx1", 5, 0⟩,
         ⟨"0xToken", "0xPayer", "0xMERCHANT", 10, "0xmemohexaa", "0xTx1", 5, 0⟩] =
      processBatch "0xMerchant"
        ⟨[⟨1, "INV-0001-aa", "0xMemoHexAA", "10.00", .Unpaid, none, none, none⟩], []⟩
        [⟨"0xToken", "0xPayer", "0xMERCHANT", 10, "0xmemohexaa", "0xTx1", 5, 0⟩] ∧
    countInvoicePaid
        (processBatch "0xMerchant"
          ⟨[⟨1, "INV-0001-aa", "0xMemoHexAA", "10.00", .Unpaid, none, none, none⟩], []⟩
          [⟨"0xToken", "0xPayer", "0xMERCHANT", 10, "0xmemohexaa", "0xTx1", 5, 0⟩]).broadcasts =
      countInvoicePaid
        (⟨[⟨1, "INV-0001-aa", "0xMemoHexAA", "10.00", .Unpaid, none, none, none⟩], []⟩ :
          WatcherState).broadcasts + 1 := by
  have h := watcher_idempotent_settlement "0xMerchant"
    ⟨[⟨1, "INV-0001-aa", "0xMemoHexAA", "10.00", .Unpaid, none, none, none⟩], []⟩
    ⟨"0xToken", "0xPayer", "0xMERCHANT", 10, "0xmemohexaa", "0xTx1", 5, 0⟩
    ⟨1, "INV-0001-aa", "0xMemoHexAA", "10.00", .Unpaid, none, none, none⟩
    (by decide) (by decide) (by decide)
  exact ⟨h.1, h.2.2.2⟩

/-- One `Map.set` step of the memo-index construction, seen through
`mapGet`. -/
theorem mapGet_memoIndexSet (merchant : String) (m : MemoIndex) (l : EventLog)
    (k : String × String) :
    mapGet k (memoIndexSet merchant m l) =
      if lowerStr l.toAddr = lowerStr merchant ∧ memoKey l.fromAddr l.memo = k then
        some l.transactionHash
      else mapGet k m := by
  by_cases hto : lowerStr l.toAddr = lowerStr merchant
  · by_cases hk : memoKey l.fromAddr l.memo = k
    · rw [memoIndexSet, if_neg (by simp [hto]), mapGet, if_pos hk, if_pos ⟨hto, hk⟩]
    · rw [memoIndexSet, if_neg (by simp [hto]), mapGet, if_neg hk,
        if_neg (by simp [hk])]
  · rw [memoIndexSet, if_pos hto, if_neg (by simp [hto])]

/-- A key is present in the memo index exactly when some event of the
window is addressed to the merchant and carries that `(sender, memo)`
key. -/
theorem mapGet_buildMemoIndex_isSome (merchant : String) (logs : List EventLog)
    (k : String × String) :
    (mapGet k (buildMemoIndex merchant logs)).isSome = true ↔
      ∃ l ∈ logs, lowerStr l.toAddr = lowerStr merchant ∧
        memoKey l.fromAddr l.memo = k := by
  have general : ∀ (acc : MemoIndex),
      (mapGet k (logs.foldl (memoIndexSet merchant) acc)).isSome = true ↔
        (mapGet k acc).isSome = true ∨
          ∃ l ∈ logs, lowerStr l.toAddr = lowerStr merchant ∧
            memoKey l.fromAddr l.memo = k := by
    induction logs with
    | nil => intro acc; simp
    | cons l ls ih =>
      intro acc
      rw [List.foldl_cons, ih]
      by_cases hl : lowerStr l.toAddr = lowerStr merchant ∧ memoKey l.fromAddr l.memo = k
      · rw [mapGet_memoIndexSet, if_pos hl]
        simp only [Option.isSome_some, true_or, true_iff]
        right
        exact ⟨l, List.mem_cons_self l ls, hl⟩
      · rw [mapGet_memoIndexSet, if_neg hl]
        constructor
        · rintro (h | ⟨x, hx, hxp⟩)
          · exact Or.inl h
          · exact Or.inr ⟨x, List.mem_cons_of_mem l hx, hxp⟩
        · rintro (h | ⟨x, hx, hxp⟩)
          · exact Or.inl h
          · rcases List.mem_cons.mp hx with rfl | hx2
            · exact absurd hxp hl
            · exact Or.inr ⟨x, hx2, hxp⟩
  rw [buildMemoIndex, general []]
  simp [mapGet]

/-- A backfill step marks an invoice that is Open and whose key the
index resolves. -/
theorem stepInvoice_marks (idx : MemoIndex) (inv : RegInvoice)
    (h0 : inv.status = 0)
    (hs : (mapGet (memoKey inv.payee inv.invoiceId) idx).isSome = true) :
    (stepInvoice idx inv).2 = 1 ∧ (stepInvoice idx inv).1.status = 1 := by
  obtain ⟨tx, htx⟩ := Option.isSome_iff_exists.mp hs
  simp [stepInvoice, h0, htx]

/-- A backfill step leaves a non-open invoice alone. -/
theorem stepInvoice_skips (idx : MemoIndex) (inv : RegInvoice)
    (h1 : inv.status ≠ 0) : stepInvoice idx inv = (inv, 0) := by
  rw [stepInvoice, if_pos h1]

/-- If every invoice of the pass is marked, the pass counts them all and
every resulting invoice is Paid. -/
theorem refreshLoop_marks_all (idx : MemoIndex) (regs : List RegInvoice)
    (h : ∀ inv ∈ regs, (stepInvoice idx inv).2 = 1 ∧ (stepInvoice idx inv).1.status = 1) :
    (refreshLoop idx regs).2 = regs.length ∧
      ∀ j ∈ (refreshLoop idx regs).1, j.status = 1 := by
  induction regs with
  | nil => simp [refreshLoop]
  | cons a as ih =>
    have ha := h a (List.mem_cons_self a as)
    have ih2 := ih fun x hx => h x (List.mem_cons_of_mem a hx)
    constructor
    · simp [refreshLoop, ha.1, ih2.1, Nat.add_comm]
    · intro j hj
      rw [refreshLoop] at hj
      rcases List.mem_cons.mp hj with rfl | hj2
      · exact ha.2
      · exact ih2.2 j hj2

/-- A pass over invoices none of which is Open marks nothing. -/
theorem refreshLoop_skips_all (idx : MemoIndex) (regs : List RegInvoice)
    (h : ∀ inv ∈ regs, inv.status ≠ 0) : (refreshLoop idx regs).2 = 0 := by
  induction regs with
  | nil => simp [refreshLoop]
  | cons a as ih =>
    have ha := stepInvoice_skips idx a (h a (List.mem_cons_self a as))
    have ih2 := ih fun x hx => h x (List.mem_cons_of_mem a hx)
    simp [refreshLoop, ha, ih2]

/-- C3: with N registry invoices, all Open, each having exactly one
`TransferWithMemo` event addressed to the merchant with matching
`(payee, invoiceId)` in the queried window, one refresh-status pass
marks all of them and reports `marked = N`, and an immediately repeated
pass over the same window reports `marked = 0`. -/
theorem backfill_convergence (merchant : String) (logs : List EventLog)
    (regs : List RegInvoice)
    (hopen : ∀ inv ∈ regs, inv.status = 0)
    (hone : ∀ inv ∈ regs, (logs.filter (settles merchant inv)).length = 1) :
    (refreshPass merchant logs regs).2 = regs.length ∧
    (refreshPass merchant logs (refreshPass merchant logs regs).1).2 = 0 := by
  have hstep : ∀ inv ∈ regs,
      (stepInvoice (buildMemoIndex merchant logs) inv).2 = 1 ∧
      (stepInvoice (buildMemoIndex merchant logs) inv).1.status = 1 := by
    intro inv hinv
    apply stepInvoice_marks _ _ (hopen inv hinv)
    rw [mapGet_buildMemoIndex_isSome]
    obtain ⟨a, hfa⟩ := List.length_eq_one.mp (hone inv hinv)
    have hamem : a ∈ logs.filter (settles merchant inv) := by rw [hfa]; simp
    obtain ⟨hmem, hset⟩ := List.mem_filter.mp hamem
    have hparts := hset
    rw [settles, Bool.and_eq_true, Bool.and_eq_true] at hparts
    obtain ⟨⟨h1, h2⟩, h3⟩ := hparts
    refine ⟨a, hmem, by simpa using h1, ?_⟩
    rw [memoKey, memoKey]
    rw [show lowerStr a.fromAddr = lowerStr inv.payee by simpa using h2,
      show lowerStr a.memo = lowerStr inv.invoiceId by simpa using h3]
  have first := refreshLoop_marks_all (buildMemoIndex merchant logs) regs hstep
  refine ⟨first.1, ?_⟩
  apply refreshLoop_skips_all
  intro inv hinv
  have := first.2 inv hinv
  omega

/-- C3, witness: two open invoices, each settled by exactly one event in
the window; the first pass marks 2, the second pass marks 0. -/
theorem backfill_convergence_witness :
    (refreshPass "0xMerchant"
        [⟨"0xToken", "0xAlice", "0xMerchant", 5, "0xMemo1", "0xTxA", 3, 0⟩,
         ⟨"0xToken", "0xBob", "0xMerchant", 7, "0xMemo2", "0xTxB", 4, 0⟩]
        [⟨1, "0xMemo1", "0xAlice", 0, "0x0"⟩, ⟨2, "0xMemo2", "0xBob", 0, "0x0"⟩]).2 =
      ([⟨1, "0xMemo1", "0xAlice", 0, "0x0"⟩,
        (⟨2, "0xMemo2", "0xBob", 0, "0x0"⟩ : RegInvoice)]).length ∧
    (refreshPass "0xMerchant"
        [⟨"0xToken", "0xAlice", "0xMerchant", 5, "0xMemo1", "0xTxA", 3, 0⟩,
         ⟨"0xToken", "0xBob", "0xMerchant", 7, "0xMemo2", "0xTxB", 4, 0⟩]
        (refreshPass "0xMerchant"
          [⟨"0xToken", "0xAlice", "0xMerchant", 5, "0xMemo1", "0xTxA", 3, 0⟩,
           ⟨"0xToken", "0xBob", "0xMerchant", 7, "0xMemo2", "0xTxB", 4, 0⟩]
          [⟨1, "0xMemo1", "0xAlice", 0, "0x0"⟩,
           ⟨2, "0xMemo2", "0xBob", 0, "0x0"⟩]).1).2 = 0 :=
  backfill_convergence "0xMerchant"
    [⟨"0xToken", "0xAlice", "0xMerchant", 5, "0xMemo1", "0xTxA", 3, 0⟩,
     ⟨"0xToken", "0xBob", "0xMerchant", 7, "0xMemo2", "0xTxB", 4, 0⟩]
    [⟨1, "0xMemo1", "0xAlice", 0, "0x0"⟩, ⟨2, "0xMemo2", "0xBob", 0, "0x0"⟩]
    (by decide) (by decide)

/-- Membership in the deduplicating key accumulator: a key is collected
exactly when it was already seen or belongs to some event of the chunk. -/
theorem addKeys_mem (k : String × Nat) (es : List EventLog) :
    ∀ seen : List (String × Nat),
      k ∈ addKeys seen es ↔ k ∈ seen ∨ ∃ e ∈ es, logKey e = k := by
  induction es with
  | nil => intro seen; simp [addKeys]
  | cons e es ih =>
    intro seen
    by_cases h : logKey e ∈ seen
    · rw [addKeys, if_pos h, ih]
      constructor
      · rintro (hs | ⟨x, hx, hxk⟩)
        · exact Or.inl hs
        · exact Or.inr ⟨x, List.mem_cons_of_mem e hx, hxk⟩
      · rintro (hs | ⟨x, hx, hxk⟩)
        · exact Or.inl hs
        · rcases List.mem_cons.mp hx with rfl | hx2
          · exact Or.inl (hxk ▸ h)
          · exact Or.inr ⟨x, hx2, hxk⟩
    · rw [addKeys, if_neg h, ih]
      constructor
      · rintro (hs | ⟨x, hx, hxk⟩)
        · rcases List.mem_cons.mp hs with rfl | hs2
          · exact Or.inr ⟨e, List.mem_cons_self e es, rfl⟩
          · exact Or.inl hs2
        · exact Or.inr ⟨x, List.mem_cons_of_mem e hx, hxk⟩
      · rintro (hs | ⟨x, hx, hxk⟩)
        · exact Or.inl (List.mem_cons_of_mem _ hs)
        · rcases List.mem_cons.mp hx with rfl | hx2
          · exact Or.inl (hxk ▸ List.mem_cons_self (logKey x) seen)
          · exact Or.inr ⟨x, hx2, hxk⟩

/-- Membership in one ledger range query. -/
theorem getLogsIn_mem (q : EventLog → Bool) (ledger : List EventLog)
    (lo hi : Nat) (e : EventLog) :
    e ∈ getLogsIn q ledger lo hi ↔
      e ∈ ledger ∧ q e = true ∧ lo ≤ e.blockNumber ∧ e.blockNumber ≤ hi := by
  rw [getLogsIn, List.mem_filter]
  simp [and_assoc]

/-- The backward chunk loop collects exactly the keys of the matching
events whose block lies in `[minBlock, endBlock]`, on top of the keys
already seen, whenever the fuel exceeds the end block. -/
theorem chunkLoop_mem (q : EventLog → Bool) (ledger : List EventLog) (minBlock : Nat) :
    ∀ (fuel endBlock : Nat) (seen : List (String × Nat)),
      endBlock < fuel → minBlock ≤ endBlock →
      ∀ k, k ∈ chunkLoop q ledger minBlock fuel endBlock seen ↔
        k ∈ seen ∨ ∃ e ∈ ledger, q e = true ∧ minBlock ≤ e.blockNumber ∧
          e.blockNumber ≤ endBlock ∧ logKey e = k := by
  intro fuel
  induction fuel with
  | zero => intro endBlock seen hfuel; omega
  | succ fuel ih =>
    intro endBlock seen hfuel hmin k
    rw [chunkLoop]
    set startBlock := if MAX_LOG_RANGE < endBlock then endBlock - MAX_LOG_RANGE else 0 with hsb
    set boundedStart := if startBlock < minBlock then minBlock else startBlock with hbs
    have hsb_le : startBlock ≤ endBlock := by
      rw [hsb]; split <;> omega
    have hbs_ge : minBlock ≤ boundedStart := by
      rw [hbs]; split <;> omega
    have hbs_le : boundedStart ≤ endBlock := by
      rw [hbs]; split <;> omega
    by_cases hstop : boundedStart = 0 ∨ boundedStart = minBlock
    · rw [if_pos hstop]
      have hbs_eq : boundedStart = minBlock := by omega
      rw [addKeys_mem]
      constructor
      · rintro (hs | ⟨e, he, hek⟩)
        · exact Or.inl hs
        · obtain ⟨hmem, hq, hlo, hhi⟩ := (getLogsIn_mem q ledger _ _ e).mp he
          exact Or.inr ⟨e, hmem, hq, by omega, hhi, hek⟩
      · rintro (hs | ⟨e, hmem, hq, hlo, hhi, hek⟩)
        · exact Or.inl hs
        · refine Or.inr ⟨e, ?_, hek⟩
          exact (getLogsIn_mem q ledger _ _ e).mpr ⟨hmem, hq, by omega, hhi⟩
    · rw [if_neg hstop]
      have hbs_gt : minBlock < boundedStart := by omega
      have hbs_pos : 0 < boundedStart := by omega
      rw [ih (boundedStart - 1) _ (by omega) (by omega) k, addKeys_mem]
      constructor
      · rintro ((hs | ⟨e, he, hek⟩) | ⟨e, hmem, hq, hlo, hhi, hek⟩)
        · exact Or.inl hs
        · obtain ⟨hmem, hq, hlo, hhi⟩ := (getLogsIn_mem q ledger _ _ e).mp he
          exact Or.inr ⟨e, hmem, hq, by omega, hhi, hek⟩
        · exact Or.inr ⟨e, hmem, hq, hlo, by omega, hek⟩
      · rintro (hs | ⟨e, hmem, hq, hlo, hhi, hek⟩)
        · exact Or.inl (Or.inl hs)
        · by_cases hcut : boundedStart ≤ e.blockNumber
          · refine Or.inl (Or.inr ⟨e, ?_, hek⟩)
            exact (getLogsIn_mem q ledger _ _ e).mpr ⟨hmem, hq, hcut, hhi⟩
          · exact Or.inr ⟨e, hmem, hq, hlo, by omega, hek⟩

/-- C9: for any fixed ledger of events and any event filter, the
backward chunked query of the transactions endpoint over `[0, 10000]`
(chunks bounded by `MAX_LOG_RANGE`, merged with deduplication by the
`(transactionHash, logIndex)` key) collects exactly the keys that one
unbounded query over the whole range `[0, 10000]` matches. -/
theorem chunked_query_matches_single (q : EventLog → Bool)
    (ledger : List EventLog) (k : String × Nat) :
    k ∈ chunkQuery q ledger 0 10000 ↔
      k ∈ (getLogsIn q ledger 0 10000).map logKey := by
  rw [chunkQuery, if_pos (by omega),
    chunkLoop_mem q ledger 0 10001 10000 [] (by omega) (by omega) k]
  rw [List.mem_map]
  constructor
  · rintro (hs | ⟨e, hmem, hq, hlo, hhi, hek⟩)
    · simp at hs
    · exact ⟨e, (getLogsIn_mem q ledger 0 10000 e).mpr ⟨hmem, hq, hlo, hhi⟩, hek⟩
  · rintro ⟨e, he, hek⟩
    obtain ⟨hmem, hq, hlo, hhi⟩ := (getLogsIn_mem q ledger 0 10000 e).mp he
    exact Or.inr ⟨e, hmem, hq, hlo, hhi, hek⟩

end OnchainDD
